import Mathlib

/-!
Verification development for the `pycharge` electromagnetism engine
(`pycharge/simulation.py`).

The embedding translates the `Simulation` class into pure Lean functions.
Python floats are modelled as exact rationals (`ℚ`); numpy coordinate
meshes are modelled as families `ι → ℚ` indexed by an arbitrary grid-index
type `ι` (every numpy operation used by the source is elementwise, so the
3-D shape of the mesh is irrelevant); numpy library routines that are not
part of the repository (`scipy.optimize.newton`, the elementwise square
root `** 0.5` / `np.linalg.norm`) are abstract parameters collected in a
`NumEnv` record.  Fallible code paths (a Python `raise`, or subscripting
the `None` returned by `_calculate_individual_E` for an unrecognized
selector) are modelled with `Option` / `Except`.

The classes `Charge` and `Dipole` live in `charges.py` / `dipole.py`,
which are not part of the sources at hand; the definitions that depend on
them are modelled from the specification and carry a doc comment starting
with `Modelled from the spec:`.
-/

namespace PyCharge

/-- A 3-component vector of rationals, modelling a numpy 3-vector of
floats. -/
structure Vec3 where
  x : ℚ
  y : ℚ
  z : ℚ
deriving DecidableEq

instance : Zero Vec3 := ⟨⟨0, 0, 0⟩⟩

instance : Add Vec3 := ⟨fun a b => ⟨a.x + b.x, a.y + b.y, a.z + b.z⟩⟩

instance : Sub Vec3 := ⟨fun a b => ⟨a.x - b.x, a.y - b.y, a.z - b.z⟩⟩

instance : SMul ℚ Vec3 := ⟨fun a v => ⟨a * v.x, a * v.y, a * v.z⟩⟩

@[simp] theorem Vec3.zero_def : (0 : Vec3) = ⟨0, 0, 0⟩ := rfl

@[simp] theorem Vec3.zero_x : (0 : Vec3).x = 0 := rfl

@[simp] theorem Vec3.zero_y : (0 : Vec3).y = 0 := rfl

@[simp] theorem Vec3.zero_z : (0 : Vec3).z = 0 := rfl

@[simp] theorem Vec3.add_def (a b : Vec3) :
    a + b = ⟨a.x + b.x, a.y + b.y, a.z + b.z⟩ := rfl

@[simp] theorem Vec3.sub_def (a b : Vec3) :
    a - b = ⟨a.x - b.x, a.y - b.y, a.z - b.z⟩ := rfl

@[simp] theorem Vec3.smul_def (a : ℚ) (v : Vec3) :
    a • v = ⟨a * v.x, a * v.y, a * v.z⟩ := rfl

/-- Componentwise (Hadamard) product, modelling numpy `*` on same-shape
arrays (used for `dipole.polar_dir * np.array(E_total)`). -/
def Vec3.hadamard (a b : Vec3) : Vec3 :=
  ⟨a.x * b.x, a.y * b.y, a.z * b.z⟩

/-- Euclidean dot product of two 3-vectors. -/
def Vec3.dot (a b : Vec3) : ℚ :=
  a.x * b.x + a.y * b.y + a.z * b.z

/-- The 3-dimensional cross product. -/
def Vec3.cross (a b : Vec3) : Vec3 :=
  ⟨a.y * b.z - a.z * b.y, a.z * b.x - a.x * b.z, a.x * b.y - a.y * b.x⟩

/-- `scipy.constants.c` (exact in SI). -/
def c : ℚ := 299792458

/-- `scipy.constants.epsilon_0`, the float value as an exact rational. -/
def eps : ℚ := 8.8541878128e-12

/-- `scipy.constants.pi`, the float value as an exact rational. -/
def pi : ℚ := 3.141592653589793

/-- A point charge.  `charges.py` is not among the sources, so this record
is modelled from the spec: a signed charge `q` together with the three
position/velocity/acceleration component functions of time, each accepting
(elementwise) time values.  `cid` models Python object identity, which is
what the `charge in exclude_charges` membership test of `simulation.py`
compares (the spec describes the exclusion sets as object-identity based). -/
structure Charge where
  cid : Nat
  q : ℚ
  xpos : ℚ → ℚ
  ypos : ℚ → ℚ
  zpos : ℚ → ℚ
  xvel : ℚ → ℚ
  yvel : ℚ → ℚ
  zvel : ℚ → ℚ
  xacc : ℚ → ℚ
  yacc : ℚ → ℚ
  zacc : ℚ → ℚ

/-- Membership of a charge in an exclusion list (`charge in exclude_charges`),
by object identity. -/
def chargeIn (ch : Charge) (l : List Charge) : Bool :=
  l.any fun other => other.cid == ch.cid

/-- The numeric library routines used by `simulation.py` that are external
to the repository: the elementwise square root (numpy `** 0.5` and
`np.linalg.norm`) and `scipy.optimize.newton` viewed elementwise (arguments:
the scalar residual function, the initial guess, the tolerance `tol`). -/
structure NumEnv where
  sqrt : ℚ → ℚ
  newton : (ℚ → ℚ) → ℚ → ℚ → ℚ

/-- Modelled from the spec: `Charge.solve_time`, the retarded-time residual
of the light-cone equation, elementwise at one observation point: the
signed residual of the light-travel-time equation. -/
def Charge.solve_time (env : NumEnv) (ch : Charge) (tr t x y z : ℚ) : ℚ :=
  env.sqrt ((x - ch.xpos tr) ^ 2 + (y - ch.ypos tr) ^ 2 + (z - ch.zpos tr) ^ 2)
    - c * (t - tr)

/-- Modelled from the spec: a `Dipole` (from `dipole.py`, not among the
sources).  Oscillator parameters, the polarization direction, the origin
trajectory and its time derivative, the two member charges (`charge_pair`),
the per-timestep state arrays for the dipole moment and for the member
charges' kinematic histories, and the optionally saved driving-field
history.  `init_disp` / `init_vel` are the initial conditions placed at
index 0 by `reset`. -/
structure Dipole where
  did : Nat
  q : ℚ
  m_eff : ℚ
  gamma_0 : ℚ
  omega_0 : ℚ
  polar_dir : Vec3
  origin : ℚ → Vec3
  originVel : ℚ → Vec3
  charge_pair : Charge × Charge
  init_disp : Vec3
  init_vel : Vec3
  moment_disp : List Vec3
  moment_vel : List Vec3
  moment_acc : List Vec3
  pos0 : List Vec3
  pos1 : List Vec3
  vel0 : List Vec3
  vel1 : List Vec3
  E_saved : List (Vec3 × Vec3 × Vec3)

/-- Modelled from the spec: `Dipole.reset` reallocates the per-timestep
arrays sized to the run's `timesteps` and places the initial conditions at
index 0 (member-charge histories at index 0 follow from
origin(0) ± polarization·disp/2 and its derivative). -/
def Dipole.reset (d : Dipole) (timesteps : Nat) (_dt : ℚ) (_save_E : Bool) :
    Dipole :=
  let zeros := List.replicate timesteps (0 : Vec3)
  { d with
    moment_disp := zeros.set 0 d.init_disp
    moment_vel := zeros.set 0 d.init_vel
    moment_acc := zeros
    pos0 := zeros.set 0 (d.origin 0 + (1 / 2 : ℚ) • d.polar_dir.hadamard d.init_disp)
    pos1 := zeros.set 0 (d.origin 0 - (1 / 2 : ℚ) • d.polar_dir.hadamard d.init_disp)
    vel0 := zeros.set 0 (d.originVel 0 + (1 / 2 : ℚ) • d.polar_dir.hadamard d.init_vel)
    vel1 := zeros.set 0 (d.originVel 0 - (1 / 2 : ℚ) • d.polar_dir.hadamard d.init_vel)
    E_saved := List.replicate timesteps ((0 : Vec3), (0 : Vec3), (0 : Vec3)) }

/-- Modelled from the spec: `Dipole.update_timestep` writes the new moment
displacement/velocity/acceleration at index `tstep+1` and updates the two
member charges' kinematic histories from origin(t) ± polarization·disp/2
and its time derivative; when the driving field was computed (`save_E`),
it is stored as well.  `t` is the time `dt*(tstep+1)` of the new step. -/
def Dipole.update_timestep (d : Dipole) (tstep : Nat) (mD mV mA : Vec3)
    (Ed : Option (Vec3 × Vec3 × Vec3)) (t : ℚ) : Dipole :=
  { d with
    moment_disp := d.moment_disp.set (tstep + 1) mD
    moment_vel := d.moment_vel.set (tstep + 1) mV
    moment_acc := d.moment_acc.set (tstep + 1) mA
    pos0 := d.pos0.set (tstep + 1) (d.origin t + (1 / 2 : ℚ) • d.polar_dir.hadamard mD)
    pos1 := d.pos1.set (tstep + 1) (d.origin t - (1 / 2 : ℚ) • d.polar_dir.hadamard mD)
    vel0 := d.vel0.set (tstep + 1) (d.originVel t + (1 / 2 : ℚ) • d.polar_dir.hadamard mV)
    vel1 := d.vel1.set (tstep + 1) (d.originVel t - (1 / 2 : ℚ) • d.polar_dir.hadamard mV)
    E_saved := match Ed with
      | some tr => d.E_saved.set (tstep + 1) tr
      | none => d.E_saved }

/-- The `Simulation` object: external field callables (elementwise),
Newton tolerance `h`, the flat list of all charges, the list of dipoles,
and the run attributes initialized to `None` by `__init__` and set by
`_init_simulation`. -/
structure Simulation where
  E_field : Option (ℚ → ℚ → ℚ → ℚ → Vec3)
  B_field : Option (ℚ → ℚ → ℚ → ℚ → Vec3)
  h : ℚ
  all_charges : List Charge
  dipoles : List Dipole
  timesteps : Option Nat
  dt : Option ℚ
  save_E : Option Bool

/-- A constructor argument of `Simulation.__init__`: either a `Charge` or a
`Dipole`. -/
inductive Source where
  | charge (ch : Charge) : Source
  | dipole (d : Dipole) : Source

/-- The charge-list part of `Simulation.__init__` (lines 77-87): iterate
over the sources; a `Dipole` appends its two member charges to
`all_charges` and itself to `dipoles`; a `Charge` appends itself. -/
def initCharges : List Source → List Charge
  | [] => []
  | Source.charge ch :: rest => ch :: initCharges rest
  | Source.dipole d :: rest =>
      d.charge_pair.1 :: d.charge_pair.2 :: initCharges rest

/-- The dipole-list part of `Simulation.__init__`. -/
def initDipoles : List Source → List Dipole
  | [] => []
  | Source.charge _ :: rest => initDipoles rest
  | Source.dipole d :: rest => d :: initDipoles rest

/-- `Simulation.__init__`: stores the external field callables and the
Newton tolerance, builds `all_charges` and `dipoles` from the sources, and
initializes the run attributes to `None`. -/
def initSim (sources : List Source)
    (E_field B_field : Option (ℚ → ℚ → ℚ → ℚ → Vec3)) (h : ℚ) : Simulation :=
  { E_field := E_field
    B_field := B_field
    h := h
    all_charges := initCharges sources
    dipoles := initDipoles sources
    timesteps := none
    dt := none
    save_E := none }

/-- `Simulation.__init__` with its default arguments
(`E_field=None`, `B_field=None`, `h=1e-22`). -/
def initSimDefault (sources : List Source) : Simulation :=
  initSim sources none none 1e-22

/-- The retarded-time arrays of `calculate_E` / `calculate_B` /
`calculate_V` / `calculate_A` (the two-line pattern repeated at lines
152-154, 198-200, 243-245, 287-289): elementwise,
`optimize.newton(charge.solve_time, initial_guess, args=(t_array, x, y, z),
tol=self.h)` with `initial_guess = -1e-12*np.ones(x.shape)`.  The `guess`
argument is the value filled into the initial-guess array; the source
always passes `-1e-12`. -/
def newton_tr {ι : Type} (env : NumEnv) (h : ℚ) (charge : Charge) (guess t : ℚ)
    (x y z : ι → ℚ) : ι → ℚ :=
  fun i =>
    env.newton (fun trv => charge.solve_time env trv t (x i) (y i) (z i)) guess h

/-- `Simulation._calculate_individual_E` (lines 306-347), elementwise over
the mesh: the Griffiths Eq. 10.72 velocity and acceleration fields; the
selector returns the velocity term, the acceleration term, their sum for
`'Total'`, and falls through to Python's implicit `None` for any other
string (modelled as `Option`). -/
def calculate_individual_E {ι : Type} (env : NumEnv) (charge : Charge)
    (tr x y z : ι → ℚ) (pcharge_field : String) : Option (ι → Vec3) :=
  let rx := fun i => x i - charge.xpos (tr i)
  let ry := fun i => y i - charge.ypos (tr i)
  let rz := fun i => z i - charge.zpos (tr i)
  let r_mag := fun i => env.sqrt (rx i ^ 2 + ry i ^ 2 + rz i ^ 2)
  let vx := fun i => charge.xvel (tr i)
  let vy := fun i => charge.yvel (tr i)
  let vz := fun i => charge.zvel (tr i)
  let ax := fun i => charge.xacc (tr i)
  let ay := fun i => charge.yacc (tr i)
  let az := fun i => charge.zacc (tr i)
  let ux := fun i => c * rx i / r_mag i - vx i
  let uy := fun i => c * ry i / r_mag i - vy i
  let uz := fun i => c * rz i / r_mag i - vz i
  let r_dot_u := fun i => rx i * ux i + ry i * uy i + rz i * uz i
  let r_dot_a := fun i => rx i * ax i + ry i * ay i + rz i * az i
  let vel_mag := fun i => env.sqrt (vx i ^ 2 + vy i ^ 2 + vz i ^ 2)
  let const := fun i => charge.q / (4 * pi * eps) * r_mag i / (r_dot_u i) ^ 3
  let xvel_field := fun i => const i * (c ^ 2 - vel_mag i ^ 2) * ux i
  let yvel_field := fun i => const i * (c ^ 2 - vel_mag i ^ 2) * uy i
  let zvel_field := fun i => const i * (c ^ 2 - vel_mag i ^ 2) * uz i
  let xacc_field := fun i => const i * (r_dot_a i * ux i - r_dot_u i * ax i)
  let yacc_field := fun i => const i * (r_dot_a i * uy i - r_dot_u i * ay i)
  let zacc_field := fun i => const i * (r_dot_a i * uz i - r_dot_u i * az i)
  if pcharge_field = "Velocity" then
    some (fun i => ⟨xvel_field i, yvel_field i, zvel_field i⟩)
  else if pcharge_field = "Acceleration" then
    some (fun i => ⟨xacc_field i, yacc_field i, zacc_field i⟩)
  else if pcharge_field = "Total" then
    some (fun i =>
      ⟨xvel_field i + xacc_field i, yvel_field i + yacc_field i,
       zvel_field i + zacc_field i⟩)
  else
    none

/-- Whether the loop body of the `calculate_*` methods skips `charge`
(`exclude_charges is not None and charge in exclude_charges`). -/
def isExcluded (excl : Option (List Charge)) (charge : Charge) : Bool :=
  match excl with
  | some l => chargeIn charge l
  | none => false

/-- The charge loop of `calculate_E` (lines 149-159), with the running
elementwise sums `Ex, Ey, Ez` carried in `acc`; subscripting the `None`
returned by `_calculate_individual_E` for an unrecognized selector raises
in Python, modelled by propagating `none`.  The `guess` parameter is the
initial-guess value handed to `optimize.newton`; the source passes
`-1e-12`. -/
def E_charge_loop {ι : Type} (env : NumEnv) (h : ℚ) (guess t : ℚ)
    (x y z : ι → ℚ) (pcharge_field : String) (excl : Option (List Charge)) :
    List Charge → (ι → Vec3) → Option (ι → Vec3)
  | [], acc => some acc
  | charge :: rest, acc =>
    if isExcluded excl charge then
      E_charge_loop env h guess t x y z pcharge_field excl rest acc
    else
      let tr := newton_tr env h charge guess t x y z
      match calculate_individual_E env charge tr x y z pcharge_field with
      | none => none
      | some Ef =>
          E_charge_loop env h guess t x y z pcharge_field excl rest
            (fun i => acc i + Ef i)

/-- `Simulation.calculate_E` (lines 118-164): sum the per-charge fields
over the non-excluded charges (retarded times solved by `optimize.newton`
with initial guess `-1e-12` and tolerance `self.h`), then add the external
E-field callable's value, evaluated at the query time `t`, if one is
supplied. -/
def calculate_E {ι : Type} (env : NumEnv) (sim : Simulation) (t : ℚ)
    (x y z : ι → ℚ) (pcharge_field : String) (excl : Option (List Charge)) :
    Option (ι → Vec3) :=
  match E_charge_loop env sim.h (-1e-12) t x y z pcharge_field excl
      sim.all_charges (fun _ => 0) with
  | none => none
  | some Esum =>
    some (match sim.E_field with
      | some f => fun i => Esum i + f t (x i) (y i) (z i)
      | none => Esum)

/-- Following the claim's words, for comparison with `calculate_E`: the
same computation but with the Newton initial guess `-1e-12` seconds offset
from the observation time `t`, i.e. `t + -1e-12`. -/
def calculate_E_claimGuess {ι : Type} (env : NumEnv) (sim : Simulation)
    (t : ℚ) (x y z : ι → ℚ) (pcharge_field : String)
    (excl : Option (List Charge)) : Option (ι → Vec3) :=
  match E_charge_loop env sim.h (t + -1e-12) t x y z pcharge_field excl
      sim.all_charges (fun _ => 0) with
  | none => none
  | some Esum =>
    some (match sim.E_field with
      | some f => fun i => Esum i + f t (x i) (y i) (z i)
      | none => Esum)

/-- The charge loop of `calculate_B` (lines 195-209): per charge, compute
the E-field triple, re-derive the relative position at the retarded time,
and add `1/(c*r_mag)` times the componentwise expressions
`ry*E_z - rz*E_y`, `rz*E_x - rx*E_z`, `rx*E_y - ry*E_x`. -/
def B_charge_loop {ι : Type} (env : NumEnv) (h t : ℚ) (x y z : ι → ℚ)
    (pcharge_field : String) (excl : Option (List Charge)) :
    List Charge → (ι → Vec3) → Option (ι → Vec3)
  | [], acc => some acc
  | charge :: rest, acc =>
    if isExcluded excl charge then
      B_charge_loop env h t x y z pcharge_field excl rest acc
    else
      let tr := newton_tr env h charge (-1e-12) t x y z
      match calculate_individual_E env charge tr x y z pcharge_field with
      | none => none
      | some Ef =>
        let rx := fun i => x i - charge.xpos (tr i)
        let ry := fun i => y i - charge.ypos (tr i)
        let rz := fun i => z i - charge.zpos (tr i)
        let r_mag := fun i => env.sqrt (rx i ^ 2 + ry i ^ 2 + rz i ^ 2)
        B_charge_loop env h t x y z pcharge_field excl rest
          (fun i =>
            ⟨(acc i).x + 1 / (c * r_mag i) * (ry i * (Ef i).z - rz i * (Ef i).y),
             (acc i).y + 1 / (c * r_mag i) * (rz i * (Ef i).x - rx i * (Ef i).z),
             (acc i).z + 1 / (c * r_mag i) * (rx i * (Ef i).y - ry i * (Ef i).x)⟩)

/-- `Simulation.calculate_B` (lines 166-214): sum the per-charge magnetic
fields over the non-excluded charges, then add the external B-field
callable's value at the query time `t` if one is supplied. -/
def calculate_B {ι : Type} (env : NumEnv) (sim : Simulation) (t : ℚ)
    (x y z : ι → ℚ) (pcharge_field : String) (excl : Option (List Charge)) :
    Option (ι → Vec3) :=
  match B_charge_loop env sim.h t x y z pcharge_field excl
      sim.all_charges (fun _ => 0) with
  | none => none
  | some Bsum =>
    some (match sim.B_field with
      | some f => fun i => Bsum i + f t (x i) (y i) (z i)
      | none => Bsum)

/-- The charge loop of `calculate_V` (lines 240-255): the Liénard-Wiechert
scalar potential `q*c/(4*pi*eps*(r_mag*c - r_dot_v))` per charge. -/
def V_charge_loop {ι : Type} (env : NumEnv) (h t : ℚ) (x y z : ι → ℚ)
    (excl : Option (List Charge)) : List Charge → (ι → ℚ) → (ι → ℚ)
  | [], acc => acc
  | charge :: rest, acc =>
    if isExcluded excl charge then
      V_charge_loop env h t x y z excl rest acc
    else
      let tr := newton_tr env h charge (-1e-12) t x y z
      let rx := fun i => x i - charge.xpos (tr i)
      let ry := fun i => y i - charge.ypos (tr i)
      let rz := fun i => z i - charge.zpos (tr i)
      let r_mag := fun i => env.sqrt (rx i ^ 2 + ry i ^ 2 + rz i ^ 2)
      let vx := fun i => charge.xvel (tr i)
      let vy := fun i => charge.yvel (tr i)
      let vz := fun i => charge.zvel (tr i)
      let r_dot_v := fun i => rx i * vx i + ry i * vy i + rz i * vz i
      V_charge_loop env h t x y z excl rest
        (fun i => acc i + charge.q * c / (4 * pi * eps * (r_mag i * c - r_dot_v i)))

/-- `Simulation.calculate_V` (lines 216-256). -/
def calculate_V {ι : Type} (env : NumEnv) (sim : Simulation) (t : ℚ)
    (x y z : ι → ℚ) (excl : Option (List Charge)) : ι → ℚ :=
  V_charge_loop env sim.h t x y z excl sim.all_charges (fun _ => 0)

/-- The charge loop of `calculate_A` (lines 284-303): the per-charge scalar
potential times `v/c^2`. -/
def A_charge_loop {ι : Type} (env : NumEnv) (h t : ℚ) (x y z : ι → ℚ)
    (excl : Option (List Charge)) : List Charge → (ι → Vec3) → (ι → Vec3)
  | [], acc => acc
  | charge :: rest, acc =>
    if isExcluded excl charge then
      A_charge_loop env h t x y z excl rest acc
    else
      let tr := newton_tr env h charge (-1e-12) t x y z
      let rx := fun i => x i - charge.xpos (tr i)
      let ry := fun i => y i - charge.ypos (tr i)
      let rz := fun i => z i - charge.zpos (tr i)
      let r_mag := fun i => env.sqrt (rx i ^ 2 + ry i ^ 2 + rz i ^ 2)
      let vx := fun i => charge.xvel (tr i)
      let vy := fun i => charge.yvel (tr i)
      let vz := fun i => charge.zvel (tr i)
      let r_dot_v := fun i => rx i * vx i + ry i * vy i + rz i * vz i
      let individual_V :=
        fun i => charge.q * c / (4 * pi * eps * (r_mag i * c - r_dot_v i))
      A_charge_loop env h t x y z excl rest
        (fun i =>
          ⟨(acc i).x + vx i / c ^ 2 * individual_V i,
           (acc i).y + vy i / c ^ 2 * individual_V i,
           (acc i).z + vz i / c ^ 2 * individual_V i⟩)

/-- `Simulation.calculate_A` (lines 258-304). -/
def calculate_A {ι : Type} (env : NumEnv) (sim : Simulation) (t : ℚ)
    (x y z : ι → ℚ) (excl : Option (List Charge)) : ι → Vec3 :=
  A_charge_loop env sim.h t x y z excl sim.all_charges (fun _ => 0)

/-- Following the spec's words (section 4.2), for comparison with
`calculate_B`: the per-charge magnetic field written as the cross product
`(1/(c*r_mag)) • (r × E)` with the `Vec3.cross` operation, summed over the
non-excluded charges, plus the external B field. -/
def B_cross_loop {ι : Type} (env : NumEnv) (h t : ℚ) (x y z : ι → ℚ)
    (pcharge_field : String) (excl : Option (List Charge)) :
    List Charge → (ι → Vec3) → Option (ι → Vec3)
  | [], acc => some acc
  | charge :: rest, acc =>
    if isExcluded excl charge then
      B_cross_loop env h t x y z pcharge_field excl rest acc
    else
      let tr := newton_tr env h charge (-1e-12) t x y z
      match calculate_individual_E env charge tr x y z pcharge_field with
      | none => none
      | some Ef =>
        let r := fun i =>
          (⟨x i - charge.xpos (tr i), y i - charge.ypos (tr i),
            z i - charge.zpos (tr i)⟩ : Vec3)
        let r_mag := fun i =>
          env.sqrt ((r i).x ^ 2 + (r i).y ^ 2 + (r i).z ^ 2)
        B_cross_loop env h t x y z pcharge_field excl rest
          (fun i => acc i + (1 / (c * r_mag i)) • (r i).cross (Ef i))

/-- The cross-product formulation of `calculate_B`, following the spec's
words with the unnormalized relative position `r` in the cross product. -/
def calculate_B_crossSpec {ι : Type} (env : NumEnv) (sim : Simulation)
    (t : ℚ) (x y z : ι → ℚ) (pcharge_field : String)
    (excl : Option (List Charge)) : Option (ι → Vec3) :=
  match B_cross_loop env sim.h t x y z pcharge_field excl
      sim.all_charges (fun _ => 0) with
  | none => none
  | some Bsum =>
    some (match sim.B_field with
      | some f => fun i => Bsum i + f t (x i) (y i) (z i)
      | none => Bsum)

/-- Following the claim's words (claim about the B-field formula), for
comparison with `calculate_B`: the per-charge field as
`(1/(c*r_mag)) • (r̂ × E)` with the normalized direction `r̂ = r/r_mag`. -/
def B_rhat_loop {ι : Type} (env : NumEnv) (h t : ℚ) (x y z : ι → ℚ)
    (pcharge_field : String) (excl : Option (List Charge)) :
    List Charge → (ι → Vec3) → Option (ι → Vec3)
  | [], acc => some acc
  | charge :: rest, acc =>
    if isExcluded excl charge then
      B_rhat_loop env h t x y z pcharge_field excl rest acc
    else
      let tr := newton_tr env h charge (-1e-12) t x y z
      match calculate_individual_E env charge tr x y z pcharge_field with
      | none => none
      | some Ef =>
        let r := fun i =>
          (⟨x i - charge.xpos (tr i), y i - charge.ypos (tr i),
            z i - charge.zpos (tr i)⟩ : Vec3)
        let r_mag := fun i =>
          env.sqrt ((r i).x ^ 2 + (r i).y ^ 2 + (r i).z ^ 2)
        B_rhat_loop env h t x y z pcharge_field excl rest
          (fun i => acc i +
            (1 / (c * r_mag i)) • ((1 / r_mag i) • r i).cross (Ef i))

/-- `calculate_B` as the claim words it: per-charge field
`(1/(c*|r|)) • (r̂ × E)` with the normalized `r̂`, summed, plus the
external B field. -/
def calculate_B_claimRhat {ι : Type} (env : NumEnv) (sim : Simulation)
    (t : ℚ) (x y z : ι → ℚ) (pcharge_field : String)
    (excl : Option (List Charge)) : Option (ι → Vec3) :=
  match B_rhat_loop env sim.h t x y z pcharge_field excl
      sim.all_charges (fun _ => 0) with
  | none => none
  | some Bsum =>
    some (match sim.B_field with
      | some f => fun i => Bsum i + f t (x i) (y i) (z i)
      | none => Bsum)

/-- `Simulation._E_driving` with `return_all=False` (lines 501-513): the
total field at the dipole's origin (a single-point 1×1×1 mesh, modelled
with index type `Unit`), excluding the dipole's own charge pair, projected
with the elementwise product by `polar_dir`.  The `'Total'` selector always
yields a value (lines 345-347), so the `getD` default never fires. -/
def E_driving (env : NumEnv) (sim : Simulation) (t : ℚ) (dipole : Dipole) :
    Vec3 :=
  let o := dipole.origin t
  let Et := calculate_E env sim t (fun _ : Unit => o.x) (fun _ => o.y)
    (fun _ => o.z) "Total" (some [dipole.charge_pair.1, dipole.charge_pair.2])
  dipole.polar_dir.hadamard ((Et.getD (fun _ => 0)) ())

/-- `Simulation._E_driving` with `return_all=True` (lines 514-521): the
projected total, velocity and acceleration fields at the dipole's origin. -/
def E_driving_all (env : NumEnv) (sim : Simulation) (t : ℚ)
    (dipole : Dipole) : Vec3 × Vec3 × Vec3 :=
  let o := dipole.origin t
  let ex := some [dipole.charge_pair.1, dipole.charge_pair.2]
  let Et := calculate_E env sim t (fun _ : Unit => o.x) (fun _ => o.y)
    (fun _ => o.z) "Total" ex
  let Ev := calculate_E env sim t (fun _ : Unit => o.x) (fun _ => o.y)
    (fun _ => o.z) "Velocity" ex
  let Ea := calculate_E env sim t (fun _ : Unit => o.x) (fun _ => o.y)
    (fun _ => o.z) "Acceleration" ex
  (dipole.polar_dir.hadamard ((Et.getD (fun _ => 0)) ()),
   dipole.polar_dir.hadamard ((Ev.getD (fun _ => 0)) ()),
   dipole.polar_dir.hadamard ((Ea.getD (fun _ => 0)) ()))

/-- `Simulation._LO_equation` (lines 491-499): the Lorentz-oscillator
equation of motion; the state `y` is the pair (moment displacement,
moment velocity) and the derivative is
`(y[1], q/m_eff*E_driving - gamma_0*y[1] - omega_0^2*y[0])`. -/
def LO_equation (env : NumEnv) (sim : Simulation) (t : ℚ) (y : Vec3 × Vec3)
    (dipole : Dipole) : Vec3 × Vec3 :=
  let Ed := E_driving env sim t dipole
  (y.2,
   (dipole.q / dipole.m_eff) • Ed - dipole.gamma_0 • y.2
     - dipole.omega_0 ^ 2 • y.1)

/-- `Simulation._rk4` (lines 480-489): one RK4 step for a dipole, starting
from the state stored at `t_step`, with `t = t_step*dt` and the stage
evaluations of `_LO_equation` at `t`, `t+dt/2`, `t+dt/2` and `t+dt`. -/
def rk4 (env : NumEnv) (sim : Simulation) (dt : ℚ) (t_step : Nat)
    (dipole : Dipole) : Vec3 × Vec3 :=
  let y := (dipole.moment_disp.getD t_step 0, dipole.moment_vel.getD t_step 0)
  let t := (t_step : ℚ) * dt
  let k1 := dt • LO_equation env sim t y dipole
  let k2 := dt • LO_equation env sim (t + dt / 2) (y + (1 / 2 : ℚ) • k1) dipole
  let k3 := dt • LO_equation env sim (t + dt / 2) (y + (1 / 2 : ℚ) • k2) dipole
  let k4 := dt • LO_equation env sim (t + dt) (y + k3) dipole
  y + (1 / 6 : ℚ) • (k1 + (2 : ℚ) • k2 + (2 : ℚ) • k3 + k4)

/-- Classic fourth-order Runge-Kutta for `y' = f(t, y)`, one step of size
`dt` from `(t0, y0)`, with the right-hand side re-evaluated at each
sub-stage's time. -/
def rk4Generic (f : ℚ → Vec3 × Vec3 → Vec3 × Vec3) (t0 dt : ℚ)
    (y0 : Vec3 × Vec3) : Vec3 × Vec3 :=
  let k1 := dt • f t0 y0
  let k2 := dt • f (t0 + dt / 2) (y0 + (1 / 2 : ℚ) • k1)
  let k3 := dt • f (t0 + dt / 2) (y0 + (1 / 2 : ℚ) • k2)
  let k4 := dt • f (t0 + dt) (y0 + k3)
  y0 + (1 / 6 : ℚ) • (k1 + (2 : ℚ) • k2 + (2 : ℚ) • k3 + k4)

/-- Following the claim's words, for comparison with `rk4`: RK4 where the
forcing term `E_driving` is evaluated once at the timestep's own time
`t = t_step*dt` and held constant across the four sub-stages. -/
def rk4_constantForcing (env : NumEnv) (sim : Simulation) (dt : ℚ)
    (t_step : Nat) (dipole : Dipole) : Vec3 × Vec3 :=
  let y := (dipole.moment_disp.getD t_step 0, dipole.moment_vel.getD t_step 0)
  let t := (t_step : ℚ) * dt
  let Ed := E_driving env sim t dipole
  let f := fun (yv : Vec3 × Vec3) =>
    (yv.2,
     (dipole.q / dipole.m_eff) • Ed - dipole.gamma_0 • yv.2
       - dipole.omega_0 ^ 2 • yv.1)
  let k1 := dt • f y
  let k2 := dt • f (y + (1 / 2 : ℚ) • k1)
  let k3 := dt • f (y + (1 / 2 : ℚ) • k2)
  let k4 := dt • f (y + k3)
  y + (1 / 6 : ℚ) • (k1 + (2 : ℚ) • k2 + (2 : ℚ) • k3 + k4)

/-- Python exceptions surfaced by the modelled code paths: the
`ValueError` of the velocity guard (carrying the timestep index printed at
line 541), the `NotImplementedError` constructed at line 436, and the
`NameError` that accessing the unbound name `MPI` raises. -/
inductive PyError where
  | valueError (tstep : Nat)
  | notImplementedError
  | nameError
deriving DecidableEq

/-- `Simulation._update_dipole` (lines 523-542): derive the acceleration
by finite difference, recompute the driving field decomposition if
`save_E`, write the new state into the dipole, then apply the velocity
guard: if the norm of `charge_pair[0]`'s velocity at `tstep+1` exceeds
`max_vel`, raise `ValueError` (line 542). -/
def update_dipole (env : NumEnv) (sim : Simulation) (dt : ℚ) (save_E : Bool)
    (tstep : Nat) (dipole : Dipole) (moment_disp moment_vel : Vec3)
    (max_vel : ℚ) : Except PyError Dipole :=
  let t := dt * ((tstep : ℚ) + 1)
  let moment_acc := (1 / dt) • (moment_vel - dipole.moment_vel.getD tstep 0)
  let Ed := if save_E then some (E_driving_all env sim t dipole) else none
  let d := dipole.update_timestep tstep moment_disp moment_vel moment_acc Ed t
  let v := d.vel0.getD (tstep + 1) 0
  let norm_vel := env.sqrt (v.x ^ 2 + v.y ^ 2 + v.z ^ 2)
  if norm_vel > max_vel then Except.error (PyError.valueError tstep)
  else Except.ok d

/-- The inner dipole loop of `Simulation.run` (lines 385-388) at one
timestep: for each dipole in order, compute the RK4 step and update it;
the `ValueError` of the guard aborts the whole loop. -/
def stepDipoles (env : NumEnv) (sim : Simulation) (dt : ℚ) (save_E : Bool)
    (max_vel : ℚ) (tstep : Nat) : List Dipole → Except PyError (List Dipole)
  | [] => Except.ok []
  | dipole :: rest =>
    let m := rk4 env sim dt tstep dipole
    match update_dipole env sim dt save_E tstep dipole m.1 m.2 max_vel with
    | Except.error e => Except.error e
    | Except.ok d =>
      match stepDipoles env sim dt save_E max_vel tstep rest with
      | Except.error e => Except.error e
      | Except.ok rest2 => Except.ok (d :: rest2)

/-- One iteration of the timestep loop of `Simulation.run`: update every
dipole at timestep `tstep`. -/
def runStep (env : NumEnv) (dt : ℚ) (save_E : Bool) (max_vel : ℚ)
    (sim : Simulation) (tstep : Nat) : Except PyError Simulation :=
  match stepDipoles env sim dt save_E max_vel tstep sim.dipoles with
  | Except.error e => Except.error e
  | Except.ok ds => Except.ok { sim with dipoles := ds }

/-- The timestep loop of `Simulation.run` (lines 383-388):
`for tstep in range(timesteps-1)`, counting the remaining iterations in
the last argument; an exception from the velocity guard terminates the
loop, so no later timestep is computed. -/
def runLoop (env : NumEnv) (dt : ℚ) (save_E : Bool) (max_vel : ℚ) :
    Simulation → Nat → Nat → Except PyError Simulation
  | sim, _, 0 => Except.ok sim
  | sim, tstep, n + 1 =>
    match runStep env dt save_E max_vel sim tstep with
    | Except.error e => Except.error e
    | Except.ok sim2 => runLoop env dt save_E max_vel sim2 (tstep + 1) n

/-- `Simulation._init_simulation` (lines 467-478): store the run
attributes, reset every dipole, and if `save_E`, seed the driving-field
history at `t = 0`. -/
def init_simulation (env : NumEnv) (sim : Simulation) (timesteps : Nat)
    (dt : ℚ) (save_E : Bool) : Simulation :=
  let sim1 := { sim with
    timesteps := some timesteps
    dt := some dt
    save_E := some save_E
    dipoles := sim.dipoles.map (fun d => d.reset timesteps dt save_E) }
  if save_E then
    { sim1 with
      dipoles := sim1.dipoles.map (fun d =>
        { d with E_saved := d.E_saved.set 0 (E_driving_all env sim1 0 d) }) }
  else sim1

/-- `Simulation.run` (lines 349-390) without the persistence plumbing
(`file=None`, so `_load` and `_save` are skipped): initialize, then run
the timestep loop `range(timesteps-1)` from `tstep = 0`. -/
def run (env : NumEnv) (sim : Simulation) (timesteps : Nat) (dt : ℚ)
    (save_E : Bool) (max_vel : ℚ) : Except PyError Simulation :=
  let sim0 := init_simulation env sim timesteps dt save_E
  runLoop env dt save_E max_vel sim0 0 (timesteps - 1)

/-- The observable milestones of the prologue of `Simulation.run_mpi`. -/
inductive MpiStep where
  | importOk
  | initSimulationRan
  | mpiAccessed
deriving DecidableEq

/-- The control flow of the prologue of `Simulation.run_mpi`
(lines 433-442, with `file=None`), as a trace of milestones plus the
outcome.  When `mpi4py` is absent, the `except ImportError` branch at line
436 is the bare expression statement
`NotImplementedError('mpi4py package is not installed.')`: it constructs
the exception object but does not raise it, so execution continues;
`_init_simulation` then runs (dipole state is reset and reallocated), and
the first use of the name `MPI` at line 440 (`MPI.COMM_WORLD`) raises
`NameError` because the failed import left `MPI` unbound. -/
def run_mpi_prologue (mpiInstalled : Bool) :
    List MpiStep × Except PyError Unit :=
  if mpiInstalled then
    ([MpiStep.importOk, MpiStep.initSimulationRan, MpiStep.mpiAccessed],
     Except.ok ())
  else
    ([MpiStep.initSimulationRan], Except.error PyError.nameError)

/-- `Simulation.__eq__` (lines 93-96), parameterized by the charge
equality `chEq` (the `Charge.__eq__` of `charges.py`, which is not among
the sources; the spec only requires a stable equality notion over the
charge list).  The `isinstance` check always holds between two modelled
`Simulation` records. -/
def simEq (chEq : Charge → Charge → Bool) (s1 s2 : Simulation) : Bool :=
  s1.dt == s2.dt
    && (s1.all_charges.length == s2.all_charges.length
      && (s1.all_charges.zip s2.all_charges).all fun p => chEq p.1 p.2)
    && s1.timesteps == s2.timesteps

/-- The scan of `Simulation._load` (lines 103-116) over the simulations
stored in a file: repeatedly unpickle until one compares equal to `self`
(`while self != loaded_simulation`); running out of entries is the
`EOFError` path, returning `False` (modelled as `none`). -/
def loadScan (chEq : Charge → Charge → Bool) (self : Simulation) :
    List Simulation → Option Simulation
  | [] => none
  | s :: rest =>
    if simEq chEq self s then some s else loadScan chEq self rest

/-! ### Helper lemmas -/

/-- For a selector other than the three recognized strings,
`_calculate_individual_E` falls through all branches and returns `None`. -/
theorem calculate_individual_E_none {ι : Type} (env : NumEnv) (charge : Charge)
    (tr x y z : ι → ℚ) (pf : String) (h1 : pf ≠ "Velocity")
    (h2 : pf ≠ "Acceleration") (h3 : pf ≠ "Total") :
    calculate_individual_E env charge tr x y z pf = none := by
  simp [calculate_individual_E, h1, h2, h3]

/-- If some charge of the list is not excluded and the selector is
unrecognized, the E charge loop propagates `None`. -/
theorem E_charge_loop_none {ι : Type} (env : NumEnv) (h g t : ℚ)
    (x y z : ι → ℚ) (pf : String) (excl : Option (List Charge))
    (h1 : pf ≠ "Velocity") (h2 : pf ≠ "Acceleration") (h3 : pf ≠ "Total") :
    ∀ (l : List Charge) (acc : ι → Vec3),
      (∃ ch ∈ l, isExcluded excl ch = false) →
      E_charge_loop env h g t x y z pf excl l acc = none := by
  intro l
  induction l with
  | nil => intro acc hex; simp at hex
  | cons charge rest ih =>
    intro acc hex
    by_cases hskip : isExcluded excl charge
    · obtain ⟨c0, hc0mem, hc0⟩ := hex
      rcases List.mem_cons.mp hc0mem with hc0head | hc0rest
      · rw [hc0head] at hc0; rw [hc0] at hskip; exact absurd hskip (by simp)
      · simp only [E_charge_loop, hskip, if_true]
        exact ih acc ⟨c0, hc0rest, hc0⟩
    · simp only [E_charge_loop, hskip, if_false, Bool.false_eq_true]
      rw [calculate_individual_E_none env charge _ x y z pf h1 h2 h3]

/-- If some charge of the list is not excluded and the selector is
unrecognized, the B charge loop propagates `None`. -/
theorem B_charge_loop_none {ι : Type} (env : NumEnv) (h t : ℚ)
    (x y z : ι → ℚ) (pf : String) (excl : Option (List Charge))
    (h1 : pf ≠ "Velocity") (h2 : pf ≠ "Acceleration") (h3 : pf ≠ "Total") :
    ∀ (l : List Charge) (acc : ι → Vec3),
      (∃ ch ∈ l, isExcluded excl ch = false) →
      B_charge_loop env h t x y z pf excl l acc = none := by
  intro l
  induction l with
  | nil => intro acc hex; simp at hex
  | cons charge rest ih =>
    intro acc hex
    by_cases hskip : isExcluded excl charge
    · obtain ⟨c0, hc0mem, hc0⟩ := hex
      rcases List.mem_cons.mp hc0mem with hc0head | hc0rest
      · rw [hc0head] at hc0; rw [hc0] at hskip; exact absurd hskip (by simp)
      · simp only [B_charge_loop, hskip, if_true]
        exact ih acc ⟨c0, hc0rest, hc0⟩
    · simp only [B_charge_loop, hskip, if_false, Bool.false_eq_true]
      rw [calculate_individual_E_none env charge _ x y z pf h1 h2 h3]

/-- Adding the zero vector on the left is the identity. -/
@[simp] theorem Vec3.zero_add (v : Vec3) : (0 : Vec3) + v = v := by
  cases v; simp

/-- Adding the zero vector on the right is the identity. -/
@[simp] theorem Vec3.add_zero (v : Vec3) : v + (0 : Vec3) = v := by
  cases v; simp

/-- Rearrangement of four summands used when splitting the running field
sums into their velocity and acceleration parts. -/
theorem Vec3.add_add_add_comm (a b c d : Vec3) :
    a + b + (c + d) = a + c + (b + d) := by
  cases a; cases b; cases c; cases d
  simp only [Vec3.add_def, Vec3.mk.injEq]
  exact ⟨by ring, by ring, by ring⟩

/-- For every charge and retarded-time array, the `'Total'` selector of
`_calculate_individual_E` returns exactly the elementwise sum of what the
`'Velocity'` and `'Acceleration'` selectors return. -/
theorem calculate_individual_E_total_split {ι : Type} (env : NumEnv)
    (ch : Charge) (tr x y z : ι → ℚ) :
    ∃ fV fA,
      calculate_individual_E env ch tr x y z "Velocity" = some fV ∧
      calculate_individual_E env ch tr x y z "Acceleration" = some fA ∧
      calculate_individual_E env ch tr x y z "Total"
        = some (fun i => fV i + fA i) :=
  ⟨(calculate_individual_E env ch tr x y z "Velocity").getD (fun _ => 0),
   (calculate_individual_E env ch tr x y z "Acceleration").getD (fun _ => 0),
   rfl, rfl, rfl⟩

/-- Splitting the E charge loop: starting from accumulators related by
`accT = accV + accA`, the `'Total'` run of the loop succeeds and equals,
elementwise, the sum of the `'Velocity'` and `'Acceleration'` runs. -/
theorem E_charge_loop_total_split {ι : Type} (env : NumEnv) (h g t : ℚ)
    (x y z : ι → ℚ) (excl : Option (List Charge)) :
    ∀ (l : List Charge) (accT accV accA : ι → Vec3),
      (∀ i, accT i = accV i + accA i) →
      ∃ fT fV fA,
        E_charge_loop env h g t x y z "Total" excl l accT = some fT ∧
        E_charge_loop env h g t x y z "Velocity" excl l accV = some fV ∧
        E_charge_loop env h g t x y z "Acceleration" excl l accA = some fA ∧
        ∀ i, fT i = fV i + fA i := by
  intro l
  induction l with
  | nil =>
    intro accT accV accA hacc
    exact ⟨accT, accV, accA, rfl, rfl, rfl, hacc⟩
  | cons charge rest ih =>
    intro accT accV accA hacc
    by_cases hskip : isExcluded excl charge
    · simp only [E_charge_loop, hskip, if_true]
      exact ih accT accV accA hacc
    · obtain ⟨fV1, fA1, hV1, hA1, hT1⟩ :=
        calculate_individual_E_total_split env charge
          (newton_tr env h charge g t x y z) x y z
      simp only [E_charge_loop, hskip, if_false, Bool.false_eq_true, hV1, hA1,
        hT1]
      refine ih _ _ _ (fun i => ?_)
      rw [hacc i]
      exact Vec3.add_add_add_comm (accV i) (accA i) (fV1 i) (fA1 i)

/-- A numeric environment with the identity as square root and the
initial guess returned unchanged by `newton`, for concrete instances
whose charges are all excluded (so its routines are never consulted). -/
def envC4 : NumEnv := ⟨fun q => q, fun _ g _ => g⟩

/-- Two trivial member charges for the concrete dipoles (identified by
`cid`; their trajectories are irrelevant because the dipole's own pair is
excluded from its driving field and no other charge is present). -/
def chA : Charge :=
  ⟨0, 1, fun _ => 0, fun _ => 0, fun _ => 0, fun _ => 0, fun _ => 0,
   fun _ => 0, fun _ => 0, fun _ => 0, fun _ => 0⟩

/-- Second member charge, distinct identity. -/
def chB : Charge :=
  ⟨1, -1, fun _ => 0, fun _ => 0, fun _ => 0, fun _ => 0, fun _ => 0,
   fun _ => 0, fun _ => 0, fun _ => 0, fun _ => 0⟩

/-! ### Claim C1 -/

/-- C1 amended: when no external E-field callable is supplied, the
`'Total'` output of `calculate_E` equals, elementwise, the sum of the
`'Velocity'` and `'Acceleration'` outputs (same time, meshes and exclusion
list), and all three queries produce a result.  (With an external E-field
supplied, the code adds the external value in every mode, so the sum of
the `'Velocity'` and `'Acceleration'` outputs exceeds the `'Total'` output
by one extra copy of the external field: see the counterexample.) -/
theorem claim_C1_amended {ι : Type} (env : NumEnv) (sim : Simulation)
    (t : ℚ) (x y z : ι → ℚ) (excl : Option (List Charge))
    (hext : sim.E_field = none) :
    (calculate_E env sim t x y z "Total" excl).isSome = true ∧
    (calculate_E env sim t x y z "Velocity" excl).isSome = true ∧
    (calculate_E env sim t x y z "Acceleration" excl).isSome = true ∧
    ∀ i, ((calculate_E env sim t x y z "Total" excl).getD (fun _ => 0)) i
      = ((calculate_E env sim t x y z "Velocity" excl).getD (fun _ => 0)) i
        + ((calculate_E env sim t x y z "Acceleration" excl).getD
            (fun _ => 0)) i := by
  obtain ⟨fT, fV, fA, hT, hV, hA, hsum⟩ :=
    E_charge_loop_total_split env sim.h (-1e-12) t x y z excl sim.all_charges
      (fun _ => 0) (fun _ => 0) (fun _ => 0) (fun i => by simp)
  unfold calculate_E
  rw [hT, hV, hA]
  refine ⟨by simp [hext], by simp [hext], by simp [hext], ?_⟩
  simp only [hext, Option.getD_some]
  exact hsum

/-- A simulation with no charges but with a constant external E field, on
which the unrestricted claim fails. -/
def simExt : Simulation :=
  ⟨some (fun _ _ _ _ => ⟨1, 0, 0⟩), none, 1e-22, [], [], none, none, none⟩

/-- C1 counterexample: with an external E-field callable supplied, the
`'Total'` output is not the sum of the `'Velocity'` and `'Acceleration'`
outputs: on `simExt` the total is the external value once, while the sum
carries it twice. -/
theorem claim_C1_counterexample :
    ((calculate_E envC4 simExt 0 (fun _ : Unit => 0) (fun _ => 0)
        (fun _ => 0) "Total" none).getD (fun _ => 0)) ()
      ≠ ((calculate_E envC4 simExt 0 (fun _ : Unit => 0) (fun _ => 0)
            (fun _ => 0) "Velocity" none).getD (fun _ => 0)) ()
        + ((calculate_E envC4 simExt 0 (fun _ : Unit => 0) (fun _ => 0)
            (fun _ => 0) "Acceleration" none).getD (fun _ => 0)) () := by
  norm_num [calculate_E, E_charge_loop, simExt, Vec3.mk.injEq]

/-- A one-charge simulation with no external field, for the C1 witness. -/
def simNoExt : Simulation :=
  ⟨none, none, 1e-22, [chA], [], none, none, none⟩

/-- Witness for C1: the amended decomposition at a concrete simulation,
mesh point and index. -/
theorem claim_C1_witness :
    (calculate_E envC4 simNoExt 0 (fun _ : Unit => 1) (fun _ => 0)
        (fun _ => 0) "Total" none).isSome = true ∧
    (calculate_E envC4 simNoExt 0 (fun _ : Unit => 1) (fun _ => 0)
        (fun _ => 0) "Velocity" none).isSome = true ∧
    (calculate_E envC4 simNoExt 0 (fun _ : Unit => 1) (fun _ => 0)
        (fun _ => 0) "Acceleration" none).isSome = true ∧
    ((calculate_E envC4 simNoExt 0 (fun _ : Unit => 1) (fun _ => 0)
        (fun _ => 0) "Total" none).getD (fun _ => 0)) ()
      = ((calculate_E envC4 simNoExt 0 (fun _ : Unit => 1) (fun _ => 0)
            (fun _ => 0) "Velocity" none).getD (fun _ => 0)) ()
        + ((calculate_E envC4 simNoExt 0 (fun _ : Unit => 1) (fun _ => 0)
            (fun _ => 0) "Acceleration" none).getD (fun _ => 0)) () := by
  obtain ⟨h1, h2, h3, h4⟩ :=
    claim_C1_amended envC4 simNoExt 0 (fun _ : Unit => 1) (fun _ => 0)
      (fun _ => 0) none rfl
  exact ⟨h1, h2, h3, h4 ()⟩

/-! ### Claim C7 -/

/-- Excluding a set of charges from the E charge loop is the same as
filtering them out of the charge list and running with no exclusions. -/
theorem E_charge_loop_filter {ι : Type} (env : NumEnv) (h g t : ℚ)
    (x y z : ι → ℚ) (pf : String) (excl : List Charge) :
    ∀ (l : List Charge) (acc : ι → Vec3),
      E_charge_loop env h g t x y z pf (some excl) l acc
        = E_charge_loop env h g t x y z pf none
            (l.filter fun ch => !chargeIn ch excl) acc := by
  intro l
  induction l with
  | nil => intro acc; rfl
  | cons ch rest ih =>
    intro acc
    by_cases hskip : chargeIn ch excl
    · simp only [E_charge_loop, isExcluded, hskip, if_true, List.filter_cons,
        Bool.not_true, Bool.false_eq_true, if_false]
      exact ih acc
    · simp only [E_charge_loop, isExcluded, hskip, Bool.false_eq_true,
        if_false, List.filter_cons, Bool.not_false, if_true]
      cases calculate_individual_E env ch (newton_tr env h ch g t x y z)
          x y z pf with
      | none => rfl
      | some Ef => exact ih _

/-- C7: `calculate_E` with an exclusion list computes exactly what it
computes on the simulation whose charge list has those charges filtered
out (so it skips the excluded charges and no others); and on a simulation
with an empty source list but an external E-field callable, `calculate_E`
returns exactly the external callable's value evaluated at the actual
query time `t` and the given coordinates. -/
theorem claim_C7_exclusion (env : NumEnv) (sim : Simulation) (t : ℚ)
    {ι : Type} (x y z : ι → ℚ) (pf : String) (excl : List Charge)
    (excl2 : Option (List Charge)) (f : ℚ → ℚ → ℚ → ℚ → Vec3) :
    calculate_E env sim t x y z pf (some excl)
      = calculate_E env
          { sim with
            all_charges := sim.all_charges.filter fun ch => !chargeIn ch excl }
          t x y z pf none ∧
    (sim.all_charges = [] → sim.E_field = some f →
      calculate_E env sim t x y z pf excl2
        = some fun i => f t (x i) (y i) (z i)) := by
  constructor
  · unfold calculate_E
    rw [E_charge_loop_filter env sim.h (-1e-12) t x y z pf excl
      sim.all_charges (fun _ => 0)]
  · intro hempty hf
    unfold calculate_E
    rw [hempty]
    simp only [E_charge_loop, hf]
    congr 1
    funext i
    simp

/-- A simulation with an empty source list and a coordinate- and
time-dependent external E field, for the C7 witness. -/
def simEmptyExt : Simulation :=
  ⟨some (fun t x _ _ => ⟨t + x, 0, 0⟩), none, 1e-22, [], [], none, none, none⟩

/-- Witness for C7: excluding `chA` from `simNoExt` equals filtering it
out, and the charge-free `simEmptyExt` returns exactly its external field
value at the actual time. -/
theorem claim_C7_witness :
    calculate_E envC4 simNoExt 0 (fun _ : Unit => 1) (fun _ => 0)
        (fun _ => 0) "Total" (some [chA])
      = calculate_E envC4
          { simNoExt with
            all_charges := simNoExt.all_charges.filter
              fun ch => !chargeIn ch [chA] }
          0 (fun _ : Unit => 1) (fun _ => 0) (fun _ => 0) "Total" none ∧
    calculate_E envC4 simEmptyExt 5 (fun _ : Unit => 1) (fun _ => 0)
        (fun _ => 0) "Total" none
      = some fun i : Unit =>
          (fun t x _ _ => (⟨t + x, 0, 0⟩ : Vec3)) 5 ((fun _ : Unit => 1) i)
            ((fun _ : Unit => (0 : ℚ)) i) ((fun _ : Unit => (0 : ℚ)) i) :=
  ⟨(claim_C7_exclusion envC4 simNoExt 0 (fun _ : Unit => 1) (fun _ => 0)
      (fun _ => 0) "Total" [chA] none (fun t x _ _ => ⟨t + x, 0, 0⟩)).1,
   (claim_C7_exclusion envC4 simEmptyExt 5 (fun _ : Unit => 1) (fun _ => 0)
      (fun _ => 0) "Total" [chA] none (fun t x _ _ => ⟨t + x, 0, 0⟩)).2
     rfl rfl⟩

/-! ### Claim C6 -/

/-- The componentwise B accumulation of the source equals, step by step,
the cross-product formulation with the unnormalized relative position. -/
theorem B_charge_loop_eq_cross {ι : Type} (env : NumEnv) (h t : ℚ)
    (x y z : ι → ℚ) (pf : String) (excl : Option (List Charge)) :
    ∀ (l : List Charge) (acc1 acc2 : ι → Vec3), acc1 = acc2 →
      B_charge_loop env h t x y z pf excl l acc1
        = B_cross_loop env h t x y z pf excl l acc2 := by
  intro l
  induction l with
  | nil => intro acc1 acc2 hacc; rw [hacc]; rfl
  | cons ch rest ih =>
    intro acc1 acc2 hacc
    by_cases hskip : isExcluded excl ch
    · simp only [B_charge_loop, B_cross_loop, hskip, if_true]
      exact ih acc1 acc2 hacc
    · simp only [B_charge_loop, B_cross_loop, hskip, Bool.false_eq_true,
        if_false]
      cases calculate_individual_E env ch (newton_tr env h ch (-1e-12) t x y z)
          x y z pf with
      | none => rfl
      | some Ef =>
        refine ih _ _ ?_
        funext i
        simp only [hacc, Vec3.cross, Vec3.smul_def, Vec3.add_def]

/-- C6 amended: the per-charge magnetic field that `calculate_B` adds to
the sum is `(1/(c*|r|)) • (r × E)` with the unnormalized relative position
`r` (equivalently `(1/c) • (r̂ × E)`), where `E` is that charge's computed
E-field contribution; the summed result then has the external B-field
callable's value added if one is supplied. -/
theorem claim_C6_amended {ι : Type} (env : NumEnv) (sim : Simulation)
    (t : ℚ) (x y z : ι → ℚ) (pf : String) (excl : Option (List Charge)) :
    calculate_B env sim t x y z pf excl
      = calculate_B_crossSpec env sim t x y z pf excl := by
  unfold calculate_B calculate_B_crossSpec
  rw [B_charge_loop_eq_cross env sim.h t x y z pf excl sim.all_charges
    (fun _ => 0) (fun _ => 0) rfl]

/-- A square-root table adequate for the C6 counterexample geometry. -/
def env6 : NumEnv :=
  ⟨fun q => if q = 4 then 2 else if q = 1 then 1 else 0, fun _ _ _ => 0⟩

/-- A charge at the coordinate origin moving with unit velocity along y
(so its E field at an observation point on the x axis is not parallel to
the relative position, making the cross products nonzero). -/
def chC : Charge :=
  ⟨0, 1, fun _ => 0, fun _ => 0, fun _ => 0, fun _ => 0, fun _ => 1,
   fun _ => 0, fun _ => 0, fun _ => 0, fun _ => 0⟩

/-- The one-charge simulation for the C6 counterexample. -/
def sim6 : Simulation :=
  ⟨none, none, 1e-22, [chC], [], none, none, none⟩

/-- C6 counterexample: the claim's formula `(1/(c*|r|)) • (r̂ × E)` with
the normalized direction `r̂` disagrees with what `calculate_B` computes
at a point with `|r| = 2` (the code multiplies the unnormalized `r` into
the cross product, so the claim's value is off by a factor `|r|`). -/
theorem claim_C6_counterexample :
    ((calculate_B env6 sim6 0 (fun _ : Unit => 2) (fun _ => 0) (fun _ => 0)
        "Total" none).getD (fun _ => 0)) ()
      ≠ ((calculate_B_claimRhat env6 sim6 0 (fun _ : Unit => 2) (fun _ => 0)
            (fun _ => 0) "Total" none).getD (fun _ => 0)) () := by
  have htr : newton_tr env6 1e-22 chC (-1e-12) 0 (fun _ : Unit => 2)
      (fun _ => 0) (fun _ => 0) = fun _ => 0 := by
    funext i; rfl
  have hind : calculate_individual_E env6 chC (fun _ : Unit => 0)
      (fun _ => 2) (fun _ => 0) (fun _ => 0) "Total"
      = some (fun _ =>
        ⟨1 / (4 * pi * eps) * 2 / (2 * c) ^ 3 * (c ^ 2 - 1) * c,
         -(1 / (4 * pi * eps) * 2 / (2 * c) ^ 3 * (c ^ 2 - 1)), 0⟩) := by
    unfold calculate_individual_E
    rw [if_neg (by decide), if_neg (by decide), if_pos rfl]
    congr 1
    funext i
    simp only [chC, env6]
    norm_num [c, pi, eps]
  have hloopB : B_charge_loop env6 1e-22 0 (fun _ : Unit => 2) (fun _ => 0)
      (fun _ => 0) "Total" none [chC] (fun _ => 0)
      = some (fun _ =>
        ⟨0, 0, -(1 / (4 * pi * eps) * 2 / (2 * c) ^ 3 * (c ^ 2 - 1)) / c⟩) := by
    simp only [B_charge_loop, isExcluded, Bool.false_eq_true, if_false, htr,
      hind]
    congr 1
    funext i
    simp only [chC, env6]
    norm_num [c, pi, eps]
  have hloopR : B_rhat_loop env6 1e-22 0 (fun _ : Unit => 2) (fun _ => 0)
      (fun _ => 0) "Total" none [chC] (fun _ => 0)
      = some (fun _ =>
        ⟨0, 0,
         -(1 / (4 * pi * eps) * 2 / (2 * c) ^ 3 * (c ^ 2 - 1)) / (2 * c)⟩) := by
    simp only [B_rhat_loop, isExcluded, Bool.false_eq_true, if_false, htr,
      hind]
    congr 1
    funext i
    simp only [chC, env6, Vec3.cross, Vec3.smul_def, Vec3.add_def]
    norm_num [c, pi, eps]
  have hB : calculate_B env6 sim6 0 (fun _ : Unit => 2) (fun _ => 0)
      (fun _ => 0) "Total" none
      = some (fun _ =>
        ⟨0, 0, -(1 / (4 * pi * eps) * 2 / (2 * c) ^ 3 * (c ^ 2 - 1)) / c⟩) := by
    unfold calculate_B
    simp only [sim6]
    rw [hloopB]
  have hR : calculate_B_claimRhat env6 sim6 0 (fun _ : Unit => 2)
      (fun _ => 0) (fun _ => 0) "Total" none
      = some (fun _ =>
        ⟨0, 0,
         -(1 / (4 * pi * eps) * 2 / (2 * c) ^ 3 * (c ^ 2 - 1)) / (2 * c)⟩) := by
    unfold calculate_B_claimRhat
    simp only [sim6]
    rw [hloopR]
  rw [hB, hR]
  simp only [Option.getD_some, ne_eq, Vec3.mk.injEq, not_and]
  intro _ _
  norm_num [c, pi, eps]

/-! ### Claim C5 -/

/-- Two numeric environments with the same square root and the same
`newton` values at a given guess and tolerance produce the same
retarded-time array. -/
theorem newton_tr_congr {ι : Type} (env1 env2 : NumEnv) (h : ℚ)
    (ch : Charge) (g t : ℚ) (x y z : ι → ℚ) (hs : env1.sqrt = env2.sqrt)
    (hn : ∀ f : ℚ → ℚ, env1.newton f g h = env2.newton f g h) :
    newton_tr env1 h ch g t x y z = newton_tr env2 h ch g t x y z := by
  funext i
  unfold newton_tr
  have hres : (fun trv => ch.solve_time env1 trv t (x i) (y i) (z i))
      = fun trv => ch.solve_time env2 trv t (x i) (y i) (z i) := by
    funext trv
    unfold Charge.solve_time
    rw [hs]
  rw [hres, hn]

/-- The per-charge field depends on the environment only through the
square root. -/
theorem calculate_individual_E_congr {ι : Type} (env1 env2 : NumEnv)
    (ch : Charge) (tr x y z : ι → ℚ) (pf : String)
    (hs : env1.sqrt = env2.sqrt) :
    calculate_individual_E env1 ch tr x y z pf
      = calculate_individual_E env2 ch tr x y z pf := by
  unfold calculate_individual_E
  rw [hs]

/-- The E charge loop consults the solver only at the loop's guess and
tolerance. -/
theorem E_charge_loop_congr {ι : Type} (env1 env2 : NumEnv) (h g t : ℚ)
    (x y z : ι → ℚ) (pf : String) (excl : Option (List Charge))
    (hs : env1.sqrt = env2.sqrt)
    (hn : ∀ f : ℚ → ℚ, env1.newton f g h = env2.newton f g h) :
    ∀ (l : List Charge) (acc : ι → Vec3),
      E_charge_loop env1 h g t x y z pf excl l acc
        = E_charge_loop env2 h g t x y z pf excl l acc := by
  intro l
  induction l with
  | nil => intro acc; rfl
  | cons ch rest ih =>
    intro acc
    by_cases hskip : isExcluded excl ch
    · simp only [E_charge_loop, hskip, if_true]
      exact ih acc
    · simp only [E_charge_loop, hskip, Bool.false_eq_true, if_false]
      rw [newton_tr_congr env1 env2 h ch g t x y z hs hn,
        calculate_individual_E_congr env1 env2 ch _ x y z pf hs]
      cases calculate_individual_E env2 ch (newton_tr env2 h ch g t x y z)
          x y z pf with
      | none => rfl
      | some Ef => exact ih _

/-- The B charge loop consults the solver only at guess `-1e-12` and the
loop's tolerance. -/
theorem B_charge_loop_congr {ι : Type} (env1 env2 : NumEnv) (h t : ℚ)
    (x y z : ι → ℚ) (pf : String) (excl : Option (List Charge))
    (hs : env1.sqrt = env2.sqrt)
    (hn : ∀ f : ℚ → ℚ, env1.newton f (-1e-12) h = env2.newton f (-1e-12) h) :
    ∀ (l : List Charge) (acc : ι → Vec3),
      B_charge_loop env1 h t x y z pf excl l acc
        = B_charge_loop env2 h t x y z pf excl l acc := by
  intro l
  induction l with
  | nil => intro acc; rfl
  | cons ch rest ih =>
    intro acc
    by_cases hskip : isExcluded excl ch
    · simp only [B_charge_loop, hskip, if_true]
      exact ih acc
    · simp only [B_charge_loop, hskip, Bool.false_eq_true, if_false]
      rw [newton_tr_congr env1 env2 h ch (-1e-12) t x y z hs hn,
        calculate_individual_E_congr env1 env2 ch _ x y z pf hs, hs]
      cases calculate_individual_E env2 ch
          (newton_tr env2 h ch (-1e-12) t x y z) x y z pf with
      | none => rfl
      | some Ef => exact ih _

/-- The V charge loop consults the solver only at guess `-1e-12` and the
loop's tolerance. -/
theorem V_charge_loop_congr {ι : Type} (env1 env2 : NumEnv) (h t : ℚ)
    (x y z : ι → ℚ) (excl : Option (List Charge))
    (hs : env1.sqrt = env2.sqrt)
    (hn : ∀ f : ℚ → ℚ, env1.newton f (-1e-12) h = env2.newton f (-1e-12) h) :
    ∀ (l : List Charge) (acc : ι → ℚ),
      V_charge_loop env1 h t x y z excl l acc
        = V_charge_loop env2 h t x y z excl l acc := by
  intro l
  induction l with
  | nil => intro acc; rfl
  | cons ch rest ih =>
    intro acc
    by_cases hskip : isExcluded excl ch
    · simp only [V_charge_loop, hskip, if_true]
      exact ih acc
    · simp only [V_charge_loop, hskip, Bool.false_eq_true, if_false]
      rw [newton_tr_congr env1 env2 h ch (-1e-12) t x y z hs hn, hs]
      exact ih _

/-- The A charge loop consults the solver only at guess `-1e-12` and the
loop's tolerance. -/
theorem A_charge_loop_congr {ι : Type} (env1 env2 : NumEnv) (h t : ℚ)
    (x y z : ι → ℚ) (excl : Option (List Charge))
    (hs : env1.sqrt = env2.sqrt)
    (hn : ∀ f : ℚ → ℚ, env1.newton f (-1e-12) h = env2.newton f (-1e-12) h) :
    ∀ (l : List Charge) (acc : ι → Vec3),
      A_charge_loop env1 h t x y z excl l acc
        = A_charge_loop env2 h t x y z excl l acc := by
  intro l
  induction l with
  | nil => intro acc; rfl
  | cons ch rest ih =>
    intro acc
    by_cases hskip : isExcluded excl ch
    · simp only [A_charge_loop, hskip, if_true]
      exact ih acc
    · simp only [A_charge_loop, hskip, Bool.false_eq_true, if_false]
      rw [newton_tr_congr env1 env2 h ch (-1e-12) t x y z hs hn, hs]
      exact ih _

/-- C5 amended: in every field and potential query the retarded times are
produced by the `newton` solver invoked with the constant initial guess
`-1e-12` (independent of the observation time `t`) and tolerance `self.h`,
elementwise over the whole coordinate array: two environments that agree
on the square root and on the solver's values at guess `-1e-12` and
tolerance `sim.h` give identical results for `calculate_E`, `calculate_B`,
`calculate_V` and `calculate_A`; and the constructor's default tolerance
is `1e-22`. -/
theorem claim_C5_amended {ι : Type} (env1 env2 : NumEnv) (sim : Simulation)
    (t : ℚ) (x y z : ι → ℚ) (pf : String) (excl : Option (List Charge))
    (sources : List Source) (hs : env1.sqrt = env2.sqrt)
    (hn : ∀ f : ℚ → ℚ,
      env1.newton f (-1e-12) sim.h = env2.newton f (-1e-12) sim.h) :
    calculate_E env1 sim t x y z pf excl
        = calculate_E env2 sim t x y z pf excl ∧
    calculate_B env1 sim t x y z pf excl
        = calculate_B env2 sim t x y z pf excl ∧
    calculate_V env1 sim t x y z excl = calculate_V env2 sim t x y z excl ∧
    calculate_A env1 sim t x y z excl = calculate_A env2 sim t x y z excl ∧
    (initSimDefault sources).h = 1e-22 := by
  refine ⟨?_, ?_, ?_, ?_, rfl⟩
  · unfold calculate_E
    rw [E_charge_loop_congr env1 env2 sim.h (-1e-12) t x y z pf excl hs hn]
  · unfold calculate_B
    rw [B_charge_loop_congr env1 env2 sim.h t x y z pf excl hs hn]
  · unfold calculate_V
    rw [V_charge_loop_congr env1 env2 sim.h t x y z excl hs hn]
  · unfold calculate_A
    rw [A_charge_loop_congr env1 env2 sim.h t x y z excl hs hn]

/-- A solver that distinguishes the guess argument: it returns `0` exactly
at guess `-1e-12` and `5` elsewhere; it agrees at guess `-1e-12` with the
all-zero solver. -/
def envW2 : NumEnv :=
  ⟨fun q => q, fun _ g _ => if g = -1e-12 then 0 else 5⟩

/-- The all-zero solver with identity square root. -/
def envW1 : NumEnv := ⟨fun q => q, fun _ _ _ => 0⟩

/-- Witness for C5: the two concrete environments agree at guess `-1e-12`
and tolerance `1e-22`, so all four queries coincide on `simNoExt`. -/
theorem claim_C5_witness :
    calculate_E envW1 simNoExt 3 (fun _ : Unit => 1) (fun _ => 0)
        (fun _ => 0) "Total" none
      = calculate_E envW2 simNoExt 3 (fun _ : Unit => 1) (fun _ => 0)
          (fun _ => 0) "Total" none ∧
    calculate_B envW1 simNoExt 3 (fun _ : Unit => 1) (fun _ => 0)
        (fun _ => 0) "Total" none
      = calculate_B envW2 simNoExt 3 (fun _ : Unit => 1) (fun _ => 0)
          (fun _ => 0) "Total" none ∧
    calculate_V envW1 simNoExt 3 (fun _ : Unit => 1) (fun _ => 0)
        (fun _ => 0) none
      = calculate_V envW2 simNoExt 3 (fun _ : Unit => 1) (fun _ => 0)
          (fun _ => 0) none ∧
    calculate_A envW1 simNoExt 3 (fun _ : Unit => 1) (fun _ => 0)
        (fun _ => 0) none
      = calculate_A envW2 simNoExt 3 (fun _ : Unit => 1) (fun _ => 0)
          (fun _ => 0) none ∧
    (initSimDefault []).h = 1e-22 :=
  claim_C5_amended envW1 envW2 simNoExt 3 (fun _ : Unit => 1) (fun _ => 0)
    (fun _ => 0) "Total" none [] rfl (fun f => by simp [envW1, envW2])

/-- The square-root table for the C5 counterexample. -/
def envG : NumEnv :=
  ⟨fun q => if q = 1 then 1 else 0, fun _ g _ => g + 1e-12⟩

/-- A charge whose x position equals the requested retarded time, so the
computed field distinguishes which initial guess the solver received. -/
def chD : Charge :=
  ⟨0, 1, fun tr => tr, fun _ => 0, fun _ => 0, fun _ => 0, fun _ => 0,
   fun _ => 0, fun _ => 0, fun _ => 0, fun _ => 0⟩

/-- The one-charge simulation for the C5 counterexample. -/
def simG : Simulation :=
  ⟨none, none, 1e-22, [chD], [], none, none, none⟩

/-- C5 counterexample: the claim words the initial guess as `-1e-12`
seconds offset from the observation time `t`.  With a solver that returns
its guess shifted by `+1e-12` and a query at `t = 1`, the source's
computation (constant guess `-1e-12`) differs from the computation with
guess `t + -1e-12`: the source resolves the retarded time to `0` while
the claim's guess resolves it to `1`, and the charge `chD` sits at
different positions at those two times. -/
theorem claim_C5_counterexample :
    ((calculate_E envG simG 1 (fun _ : Unit => 1) (fun _ => 0) (fun _ => 0)
        "Total" none).getD (fun _ => 0)) ()
      ≠ ((calculate_E_claimGuess envG simG 1 (fun _ : Unit => 1)
            (fun _ => 0) (fun _ => 0) "Total" none).getD (fun _ => 0)) () := by
  have htr1 : newton_tr envG 1e-22 chD (-1e-12) 1 (fun _ : Unit => 1)
      (fun _ => 0) (fun _ => 0) = fun _ => 0 := by
    funext i; norm_num [newton_tr, envG]
  have htr2 : newton_tr envG 1e-22 chD (1 + -1e-12) 1 (fun _ : Unit => 1)
      (fun _ => 0) (fun _ => 0) = fun _ => 1 := by
    funext i; norm_num [newton_tr, envG]
  have hind1 : calculate_individual_E envG chD (fun _ : Unit => 0)
      (fun _ => 1) (fun _ => 0) (fun _ => 0) "Total"
      = some (fun _ => ⟨1 / (4 * pi * eps), 0, 0⟩) := by
    unfold calculate_individual_E
    rw [if_neg (by decide), if_neg (by decide), if_pos rfl]
    congr 1
    funext i
    simp only [chD, envG]
    norm_num [c, pi, eps]
  have hind2 : calculate_individual_E envG chD (fun _ : Unit => 1)
      (fun _ => 1) (fun _ => 0) (fun _ => 0) "Total"
      = some (fun _ => ⟨0, 0, 0⟩) := by
    unfold calculate_individual_E
    rw [if_neg (by decide), if_neg (by decide), if_pos rfl]
    congr 1
    funext i
    simp only [chD, envG]
    norm_num [c, pi, eps]
  have hloop1 : E_charge_loop envG 1e-22 (-1e-12) 1 (fun _ : Unit => 1)
      (fun _ => 0) (fun _ => 0) "Total" none [chD] (fun _ => 0)
      = some (fun _ => ⟨1 / (4 * pi * eps), 0, 0⟩) := by
    simp only [E_charge_loop, isExcluded, Bool.false_eq_true, if_false, htr1,
      hind1]
    congr 1
    funext i
    simp
  have hloop2 : E_charge_loop envG 1e-22 (1 + -1e-12) 1 (fun _ : Unit => 1)
      (fun _ => 0) (fun _ => 0) "Total" none [chD] (fun _ => 0)
      = some (fun _ => ⟨0, 0, 0⟩) := by
    simp only [E_charge_loop, isExcluded, Bool.false_eq_true, if_false, htr2,
      hind2]
    congr 1
    funext i
    simp
  have hc1 : calculate_E envG simG 1 (fun _ : Unit => 1) (fun _ => 0)
      (fun _ => 0) "Total" none
      = some (fun _ => ⟨1 / (4 * pi * eps), 0, 0⟩) := by
    unfold calculate_E
    simp only [simG]
    rw [hloop1]
  have hc2 : calculate_E_claimGuess envG simG 1 (fun _ : Unit => 1)
      (fun _ => 0) (fun _ => 0) "Total" none
      = some (fun _ => ⟨0, 0, 0⟩) := by
    unfold calculate_E_claimGuess
    simp only [simG]
    rw [hloop2]
  rw [hc1, hc2]
  simp only [Option.getD_some, ne_eq, Vec3.mk.injEq, not_and]
  intro h1
  exact absurd h1 (by norm_num [pi, eps])

/-! ### Claim C3 -/

/-- C3: the claim says a missing `mpi4py` makes `run_mpi` raise
`NotImplementedError` before any computation begins.  The code instead
only constructs the exception without raising it (line 436 lacks `raise`),
runs `_init_simulation`, and then dies with a `NameError` at the first use
of `MPI`: the claim is right about the intent (the method's own docstring
promises the `NotImplementedError`), the code is wrong. -/
theorem claim_C3_run_mpi_no_raise :
    run_mpi_prologue false
      = ([MpiStep.initSimulationRan], Except.error PyError.nameError) := by
  simp [run_mpi_prologue]

/-! ### Claim C4 -/

/-- A dipole at rest at the coordinate origin, polarized along x, with
`q/m_eff = 1` and no restoring or damping force. -/
def dC4 : Dipole :=
  ⟨0, 1, 1, 0, 0, ⟨1, 0, 0⟩, fun _ => 0, fun _ => 0, (chA, chB),
   0, 0, [0], [0], [0], [0], [0], [0], [0], [(0, 0, 0)]⟩

/-- A simulation containing only the dipole's pair, with a time-varying
external E field `(t, 0, 0)`. -/
def simC4 : Simulation :=
  ⟨some (fun t _ _ _ => ⟨t, 0, 0⟩), none, 1e-22, [chA, chB], [dC4],
   none, none, none⟩

/-- C4: the claim states the forcing term is held constant across the four
RK4 sub-stages.  False: with the time-varying external field of `simC4`,
one `_rk4` step differs from the constant-forcing RK4 step. -/
theorem claim_C4_counterexample :
    (rk4 envC4 simC4 1 0 dC4).1.x
      ≠ (rk4_constantForcing envC4 simC4 1 0 dC4).1.x := by
  norm_num [rk4, rk4_constantForcing, LO_equation, E_driving, calculate_E,
    E_charge_loop, isExcluded, chargeIn, Vec3.hadamard, envC4, simC4, dC4,
    chA, chB, Prod.ext_iff]

/-- C4 amended: within one `_rk4` step the four stages re-evaluate
`_LO_equation` (and with it the driving field `_E_driving`) at the
sub-stage times `t`, `t+dt/2`, `t+dt/2`, `t+dt`: `_rk4` is exactly the
classic RK4 step for the Lorentz-oscillator right-hand side with the
forcing re-evaluated at each sub-stage's time, not held constant. -/
theorem claim_C4_amended (env : NumEnv) (sim : Simulation) (dt : ℚ)
    (t_step : Nat) (dipole : Dipole) :
    rk4 env sim dt t_step dipole
      = rk4Generic (fun t y => LO_equation env sim t y dipole)
          ((t_step : ℚ) * dt) dt
          (dipole.moment_disp.getD t_step 0,
           dipole.moment_vel.getD t_step 0) := rfl

/-! ### Claim C9 -/

/-- C9: `Simulation.__eq__` compares only the class, `dt`, `all_charges`
and `timesteps`: a simulation compares equal to one that differs only in
the external `E_field` or `B_field` callables or in the Newton tolerance
`h`, and the `_load` scan therefore matches such a stored run. -/
theorem claim_C9_eq_ignores_fields (chEq : Charge → Charge → Bool)
    (s : Simulation) (E2 B2 : Option (ℚ → ℚ → ℚ → ℚ → Vec3)) (h2 : ℚ)
    (hrefl : ((s.all_charges.zip s.all_charges).all fun p => chEq p.1 p.2)
      = true) :
    simEq chEq s { s with E_field := E2, B_field := B2, h := h2 } = true ∧
    loadScan chEq s [{ s with E_field := E2, B_field := B2, h := h2 }]
      = some { s with E_field := E2, B_field := B2, h := h2 } := by
  have heq : simEq chEq s { s with E_field := E2, B_field := B2, h := h2 }
      = true := by
    simp [simEq, hrefl]
  exact ⟨heq, by simp [loadScan, heq]⟩

/-- A one-charge simulation with an external E field and tolerance
`1e-22`, for the C9 witness. -/
def simC9 : Simulation :=
  ⟨some (fun _ _ _ _ => ⟨1, 0, 0⟩), none, 1e-22, [chA], [], none, none, none⟩

/-- Witness for C9: the concrete simulation `simC9` compares equal to its
copy with no external field and a different tolerance, and the load scan
finds that copy. -/
theorem claim_C9_witness :
    simEq (fun a b => a.cid == b.cid) simC9
        { simC9 with E_field := none, B_field := none, h := 1 } = true ∧
      loadScan (fun a b => a.cid == b.cid) simC9
          [{ simC9 with E_field := none, B_field := none, h := 1 }]
        = some { simC9 with E_field := none, B_field := none, h := 1 } :=
  claim_C9_eq_ignores_fields (fun a b => a.cid == b.cid) simC9 none none 1
    (by simp [simC9])

/-! ### Claim C10 -/

/-- C10: `_calculate_individual_E` yields a field triple only for the
selectors `'Velocity'`, `'Acceleration'` and `'Total'` and returns `None`
for every other string; consequently `calculate_E` and `calculate_B`
called with an unrecognized selector produce no field array at all (the
`None` subscript raises in Python) rather than falling back to a default
mode, whenever at least one non-excluded charge is present. -/
theorem claim_C10_no_default_mode {ι : Type} (env : NumEnv) (charge : Charge)
    (tr x y z : ι → ℚ) (sim : Simulation) (t : ℚ)
    (excl : Option (List Charge)) (pf : String) (h1 : pf ≠ "Velocity")
    (h2 : pf ≠ "Acceleration") (h3 : pf ≠ "Total")
    (hch : ∃ ch ∈ sim.all_charges, isExcluded excl ch = false) :
    calculate_individual_E env charge tr x y z pf = none ∧
    calculate_E env sim t x y z pf excl = none ∧
    calculate_B env sim t x y z pf excl = none := by
  refine ⟨calculate_individual_E_none env charge tr x y z pf h1 h2 h3, ?_, ?_⟩
  · unfold calculate_E
    rw [E_charge_loop_none env sim.h _ t x y z pf excl h1 h2 h3
      sim.all_charges _ hch]
  · unfold calculate_B
    rw [B_charge_loop_none env sim.h t x y z pf excl h1 h2 h3
      sim.all_charges _ hch]

/-- Witness for C10: with the lowercase selector `'total'` and the
one-charge simulation `simC9`, the individual field is `None` and both
`calculate_E` and `calculate_B` produce no result. -/
theorem claim_C10_witness :
    calculate_individual_E envC4 chA (fun _ : Unit => 0) (fun _ => 1)
        (fun _ => 0) (fun _ => 0) "total" = none ∧
    calculate_E envC4 simC9 0 (fun _ : Unit => 1) (fun _ => 0) (fun _ => 0)
        "total" none = none ∧
    calculate_B envC4 simC9 0 (fun _ : Unit => 1) (fun _ => 0) (fun _ => 0)
        "total" none = none :=
  claim_C10_no_default_mode envC4 chA (fun _ => 0) (fun _ => 1) (fun _ => 0)
    (fun _ => 0) simC9 0 none "total" (by decide) (by decide) (by decide)
    ⟨chA, by simp [simC9], rfl⟩

/-! ### Claim C8 -/

/-- Every dipole collected by `__init__` has both member charges in the
flat charge list built by the same loop. -/
theorem initDipoles_pairs_mem :
    ∀ (sources : List Source) (d : Dipole), d ∈ initDipoles sources →
      d.charge_pair.1 ∈ initCharges sources ∧
      d.charge_pair.2 ∈ initCharges sources := by
  intro sources
  induction sources with
  | nil => intro d hd; simp [initDipoles] at hd
  | cons s rest ih =>
    intro d hd
    cases s with
    | charge ch =>
      simp only [initDipoles] at hd
      obtain ⟨h1, h2⟩ := ih d hd
      exact ⟨List.mem_cons_of_mem ch h1, List.mem_cons_of_mem ch h2⟩
    | dipole d0 =>
      simp only [initDipoles, List.mem_cons] at hd
      rcases hd with rfl | hd
      · constructor
        · simp only [initCharges]
          exact List.mem_cons_self _ _
        · simp only [initCharges]
          exact List.mem_cons_of_mem _ (List.mem_cons_self _ _)
      · obtain ⟨h1, h2⟩ := ih d hd
        simp only [initCharges]
        exact ⟨List.mem_cons_of_mem _ (List.mem_cons_of_mem _ h1),
          List.mem_cons_of_mem _ (List.mem_cons_of_mem _ h2)⟩

/-- A successful `_update_dipole` leaves the dipole's `charge_pair`
untouched (the member charges' histories change, not their identity). -/
theorem update_dipole_charge_pair (env : NumEnv) (sim : Simulation)
    (dt : ℚ) (sE : Bool) (ts : Nat) (dipole : Dipole) (mD mV : Vec3)
    (mv : ℚ) (d2 : Dipole)
    (h : update_dipole env sim dt sE ts dipole mD mV mv = Except.ok d2) :
    d2.charge_pair = dipole.charge_pair := by
  unfold update_dipole at h
  dsimp only at h
  split at h
  all_goals try split at h
  all_goals first
    | (cases h; rfl)
    | simp at h

/-- Every dipole produced by one timestep's dipole loop descends from a
dipole of the input list with the same `charge_pair`. -/
theorem stepDipoles_charge_pairs (env : NumEnv) (sim : Simulation) (dt : ℚ)
    (sE : Bool) (mv : ℚ) (ts : Nat) :
    ∀ (l l2 : List Dipole), stepDipoles env sim dt sE mv ts l = Except.ok l2 →
      ∀ d2 ∈ l2, ∃ d ∈ l, d2.charge_pair = d.charge_pair := by
  intro l
  induction l with
  | nil =>
    intro l2 h d2 hd2
    simp only [stepDipoles] at h
    cases h
    simp at hd2
  | cons dipole rest ih =>
    intro l2 h d2 hd2
    simp only [stepDipoles] at h
    cases hu : update_dipole env sim dt sE ts dipole
        (rk4 env sim dt ts dipole).1 (rk4 env sim dt ts dipole).2 mv with
    | error e => rw [hu] at h; exact absurd h (by simp)
    | ok dOne =>
      rw [hu] at h
      cases hr : stepDipoles env sim dt sE mv ts rest with
      | error e => rw [hr] at h; exact absurd h (by simp)
      | ok rest2 =>
        rw [hr] at h
        cases h
        rcases List.mem_cons.mp hd2 with rfl | hd2rest
        · exact ⟨dipole, List.mem_cons_self _ _,
            update_dipole_charge_pair env sim dt sE ts dipole _ _ mv _ hu⟩
        · obtain ⟨d, hd, heq⟩ := ih rest2 hr d2 hd2rest
          exact ⟨d, List.mem_cons_of_mem _ hd, heq⟩

/-- One loop iteration of `run` keeps `all_charges` and the dipoles'
`charge_pair`s. -/
theorem runStep_preserves (env : NumEnv) (dt : ℚ) (sE : Bool) (mv : ℚ)
    (sim sim2 : Simulation)
    (h : runStep env dt sE mv sim ts = Except.ok sim2) :
    sim2.all_charges = sim.all_charges ∧
      ∀ d2 ∈ sim2.dipoles, ∃ d ∈ sim.dipoles,
        d2.charge_pair = d.charge_pair := by
  unfold runStep at h
  cases hs : stepDipoles env sim dt sE mv ts sim.dipoles with
  | error e => rw [hs] at h; exact absurd h (by simp)
  | ok ds =>
    rw [hs] at h
    cases h
    exact ⟨rfl, stepDipoles_charge_pairs env sim dt sE mv ts sim.dipoles ds hs⟩

/-- The whole timestep loop keeps `all_charges` and the dipoles'
`charge_pair`s. -/
theorem runLoop_preserves (env : NumEnv) (dt : ℚ) (sE : Bool) (mv : ℚ) :
    ∀ (n : Nat) (sim : Simulation) (ts : Nat) (sim2 : Simulation),
      runLoop env dt sE mv sim ts n = Except.ok sim2 →
      sim2.all_charges = sim.all_charges ∧
        ∀ d2 ∈ sim2.dipoles, ∃ d ∈ sim.dipoles,
          d2.charge_pair = d.charge_pair := by
  intro n
  induction n with
  | zero =>
    intro sim ts sim2 h
    cases h
    exact ⟨rfl, fun d2 hd2 => ⟨d2, hd2, rfl⟩⟩
  | succ n ih =>
    intro sim ts sim2 h
    simp only [runLoop] at h
    cases hstep : runStep env dt sE mv sim ts with
    | error e => rw [hstep] at h; exact absurd h (by simp)
    | ok simM =>
      rw [hstep] at h
      obtain ⟨hc1, hd1⟩ := runStep_preserves env dt sE mv sim simM hstep
      obtain ⟨hc2, hd2⟩ := ih simM (ts + 1) sim2 h
      refine ⟨hc2.trans hc1, fun d2 hmem => ?_⟩
      obtain ⟨dm, hdm, heq2⟩ := hd2 d2 hmem
      obtain ⟨d, hd, heq1⟩ := hd1 dm hdm
      exact ⟨d, hd, heq2.trans heq1⟩

/-- `_init_simulation` keeps `all_charges` and the dipoles'
`charge_pair`s. -/
theorem init_simulation_preserves (env : NumEnv) (sim : Simulation)
    (timesteps : Nat) (dt : ℚ) (sE : Bool) :
    (init_simulation env sim timesteps dt sE).all_charges = sim.all_charges ∧
      ∀ d2 ∈ (init_simulation env sim timesteps dt sE).dipoles,
        ∃ d ∈ sim.dipoles, d2.charge_pair = d.charge_pair := by
  by_cases hsE : sE
  · constructor
    · simp [init_simulation, hsE]
    · intro d2 hd2
      simp only [init_simulation, hsE, if_true] at hd2
      rw [List.map_map] at hd2
      obtain ⟨d, hd, heq⟩ := List.mem_map.mp hd2
      refine ⟨d, hd, ?_⟩
      rw [← heq]
      rfl
  · constructor
    · simp [init_simulation, hsE]
    · intro d2 hd2
      simp only [init_simulation, hsE, if_false] at hd2
      obtain ⟨d, hd, heq⟩ := List.mem_map.mp hd2
      refine ⟨d, hd, ?_⟩
      rw [← heq]
      rfl

/-- C8: for every `Simulation` constructed from any mix of `Charge` and
`Dipole` sources, each dipole's two member charges are members of the flat
`all_charges` list; and after any successful `run`, the resulting
simulation still satisfies the same membership (so field-sum loops include
dipole self-fields unless explicitly excluded). -/
theorem claim_C8_pair_membership (sources : List Source)
    (E B : Option (ℚ → ℚ → ℚ → ℚ → Vec3)) (h : ℚ) :
    (∀ d ∈ (initSim sources E B h).dipoles,
      d.charge_pair.1 ∈ (initSim sources E B h).all_charges ∧
      d.charge_pair.2 ∈ (initSim sources E B h).all_charges) ∧
    (∀ (env : NumEnv) (timesteps : Nat) (dt : ℚ) (sE : Bool) (mv : ℚ)
        (sim2 : Simulation),
      run env (initSim sources E B h) timesteps dt sE mv = Except.ok sim2 →
      ∀ d ∈ sim2.dipoles,
        d.charge_pair.1 ∈ sim2.all_charges ∧
        d.charge_pair.2 ∈ sim2.all_charges) := by
  constructor
  · intro d hd
    exact initDipoles_pairs_mem sources d hd
  · intro env timesteps dt sE mv sim2 hrun d hd
    unfold run at hrun
    obtain ⟨hc, hds⟩ := runLoop_preserves env dt sE mv (timesteps - 1)
      (init_simulation env (initSim sources E B h) timesteps dt sE) 0 sim2
      hrun
    obtain ⟨hc0, hds0⟩ := init_simulation_preserves env
      (initSim sources E B h) timesteps dt sE
    obtain ⟨dm, hdm, heq2⟩ := hds d hd
    obtain ⟨d0, hd0, heq1⟩ := hds0 dm hdm
    have hpair : d.charge_pair = d0.charge_pair := heq2.trans heq1
    have hmem := initDipoles_pairs_mem sources d0 hd0
    rw [hc, hc0]
    rw [hpair]
    exact hmem

/-- The source list for the C8 witness: one dipole and one plain charge. -/
def sourcesC8 : List Source := [Source.dipole dC4, Source.charge chC]

/-- The C8 witness simulation. -/
def simC8 : Simulation := initSim sourcesC8 none none 1e-22

/-- The C8 witness simulation after `_init_simulation` (a `run` with
`timesteps = 1` performs zero loop iterations and returns it). -/
def simC8run : Simulation := init_simulation envC4 simC8 1 1 false

/-- Witness for C8: in the concrete two-source simulation the dipole's
pair is in the charge list, both at construction and after a successful
`run`. -/
theorem claim_C8_witness :
    (dC4.charge_pair.1 ∈ simC8.all_charges ∧
      dC4.charge_pair.2 ∈ simC8.all_charges) ∧
    ((dC4.reset 1 1 false).charge_pair.1 ∈ simC8run.all_charges ∧
      (dC4.reset 1 1 false).charge_pair.2 ∈ simC8run.all_charges) :=
  ⟨(claim_C8_pair_membership sourcesC8 none none 1e-22).1 dC4
      (by simp [simC8, initSim, sourcesC8, initDipoles]),
   (claim_C8_pair_membership sourcesC8 none none 1e-22).2 envC4 1 1 false 1
      simC8run rfl (dC4.reset 1 1 false)
      (by simp [simC8run, simC8, init_simulation, initSim, sourcesC8,
        initDipoles])⟩

/-! ### Claim C2 -/

/-- Splitting the timestep loop: running `a + b` iterations is running
`a`, then (unless an exception was raised) `b` more from where it left
off. -/
theorem runLoop_split (env : NumEnv) (dt : ℚ) (sE : Bool) (mv : ℚ) :
    ∀ (a b : Nat) (sim : Simulation) (ts : Nat),
      runLoop env dt sE mv sim ts (a + b)
        = match runLoop env dt sE mv sim ts a with
          | Except.error e => Except.error e
          | Except.ok s2 => runLoop env dt sE mv s2 (ts + a) b := by
  intro a
  induction a with
  | zero =>
    intro b sim ts
    simp [runLoop]
  | succ n ih =>
    intro b sim ts
    have hadd : n + 1 + b = n + b + 1 := by omega
    rw [hadd]
    simp only [runLoop]
    cases hstep : runStep env dt sE mv sim ts with
    | error e => rfl
    | ok sim2 =>
      have harith : ts + 1 + n = ts + (n + 1) := by omega
      dsimp only
      rw [ih b sim2 (ts + 1), harith]

/-- C2 amended: during `run`, as soon as the velocity guard trips — which
happens exactly when the *first* member charge (`charge_pair[0]`) of some
dipole has speed exceeding `max_vel` at the newly computed timestep — the
`ValueError` carrying that timestep index is raised and the run
terminates there, with no further timesteps computed.  (The guard reads
only `charge_pair[0]`; the second member charge is not checked: see the
counterexample.) -/
theorem claim_C2_amended (env : NumEnv) (sim : Simulation) (timesteps : Nat)
    (dt : ℚ) (sE : Bool) (mv : ℚ) (n : Nat) (simN : Simulation)
    (hlt : n < timesteps - 1)
    (hsteps : runLoop env dt sE mv
      (init_simulation env sim timesteps dt sE) 0 n = Except.ok simN)
    (htrip : runStep env dt sE mv simN n
      = Except.error (PyError.valueError n)) :
    run env sim timesteps dt sE mv
      = Except.error (PyError.valueError n) := by
  unfold run
  obtain ⟨m, hm⟩ : ∃ m, timesteps - 1 = n + (m + 1) :=
    ⟨timesteps - 1 - n - 1, by omega⟩
  rw [hm, runLoop_split env dt sE mv n (m + 1) _ 0, hsteps]
  simp only [Nat.zero_add, runLoop, htrip]

/-- The square-root table used by the concrete velocity-guard runs. -/
def envSqrt4 : NumEnv := ⟨fun q => if q = 4 then 2 else 0, fun _ _ _ => 0⟩

/-- A dipole with initial moment velocity `(4, 0, 0)` and a static origin:
after one free step, `charge_pair[0]`'s recorded speed is `2`. -/
def dW : Dipole :=
  ⟨1, 1, 1, 0, 0, ⟨1, 0, 0⟩, fun _ => 0, fun _ => 0, (chA, chB), 0,
   ⟨4, 0, 0⟩, [], [], [], [], [], [], [], []⟩

/-- The guard-tripping witness simulation. -/
def simW : Simulation :=
  ⟨none, none, 1e-22, [chA, chB], [dW], none, none, none⟩

/-- Witness for C2: on `simW` with `max_vel = 1`, the first member
charge's speed at timestep 1 is `2 > 1`, so `run` raises the `ValueError`
at timestep index 0. -/
theorem claim_C2_witness :
    run envSqrt4 simW 2 1 false 1 = Except.error (PyError.valueError 0) :=
  claim_C2_amended envSqrt4 simW 2 1 false 1 0
    (init_simulation envSqrt4 simW 2 1 false) (by norm_num) rfl
    (by norm_num [runStep, stepDipoles, update_dipole, rk4, LO_equation,
      E_driving, calculate_E, E_charge_loop, isExcluded, chargeIn,
      Dipole.update_timestep, Dipole.reset, init_simulation, simW, dW, chA,
      chB, envSqrt4, Vec3.hadamard, Prod.smul_mk, Prod.mk_add_mk,
      List.getD_cons_zero, List.getD_cons_succ, List.set_cons_zero,
      List.set_cons_succ])

/-- A dipole whose origin moves with velocity `(-1, 0, 0)` while the
moment velocity stays `(2, 0, 0)`: after one step, member charge 0 has
velocity `0` while member charge 1 has velocity `(-2, 0, 0)`, speed `2`. -/
def dV : Dipole :=
  ⟨2, 1, 1, 0, 0, ⟨1, 0, 0⟩, fun _ => 0, fun _ => ⟨-1, 0, 0⟩, (chA, chB), 0,
   ⟨2, 0, 0⟩, [], [], [], [], [], [], [], []⟩

/-- The counterexample simulation whose second member charge exceeds the
ceiling unnoticed. -/
def simV : Simulation :=
  ⟨none, none, 1e-22, [chA, chB], [dV], none, none, none⟩

/-- C2 counterexample: the claim says the run terminates with the
velocity-exceeded error as soon as *either* member charge's speed exceeds
`max_vel`.  On `simV` with `max_vel = 1`, member charge 1 reaches speed
`2 > 1` at timestep 1, yet `run` completes without any error, because the
guard at line 539 reads only `charge_pair[0]`. -/
theorem claim_C2_counterexample :
    ((run envSqrt4 simV 2 1 false 1).toOption.bind
        (fun s => s.dipoles.head?)).map
        (fun d =>
          envSqrt4.sqrt ((d.vel1.getD 1 0).x ^ 2 + (d.vel1.getD 1 0).y ^ 2
            + (d.vel1.getD 1 0).z ^ 2))
      = some 2 ∧ (2 : ℚ) > 1 := by
  constructor
  · norm_num [run, runLoop, runStep, stepDipoles, update_dipole, rk4,
      LO_equation, E_driving, calculate_E, E_charge_loop, isExcluded,
      chargeIn, Dipole.update_timestep, Dipole.reset, init_simulation, simV,
      dV, chA, chB, envSqrt4, Vec3.hadamard, Prod.smul_mk, Prod.mk_add_mk,
      List.getD_cons_zero, List.getD_cons_succ, List.set_cons_zero,
      List.set_cons_succ, Except.toOption]
  · norm_num

end PyCharge
